import Mathlib

/-!
Verification development for the `ca` package of the swarmkit repository
(join-token codec, signing policy, certificate-renewal scheduling, TLS
credential loading, bootstrap coordination and the role codec).

Strings are embedded as `List Char`, Go `time.Duration`/`time.Time` values as
`Int` (nanoseconds), Go `[]byte` as `List Nat` (each entry a byte value) and
`math/big` integers as `Nat` (the reachable values are non-negative).
Collaborators whose implementation lives outside the embedded file
(filesystem, remote CA, cfssl signer, `NewRootCA`, ...) are parameters whose
outcomes the theorems quantify over.
-/

/-! ## Characters and digits (Go `math/big` digit alphabet) -/

/-- Digit alphabet used by Go `big.Int.Text`: `0`-`9` then lowercase `a`-`z`. -/
def digitChar (v : Nat) : Char :=
  if v < 10 then Char.ofNat (48 + v) else Char.ofNat (87 + v)

/-- Digit value of a character as accepted by Go `big.Int.SetString` for bases
up to 36: decimal digits, and letters of either case with values 10..35. -/
def charVal (c : Char) : Option Nat :=
  if '0' ≤ c ∧ c ≤ '9' then some (c.toNat - 48)
  else if 'a' ≤ c ∧ c ≤ 'z' then some (c.toNat - 87)
  else if 'A' ≤ c ∧ c ≤ 'Z' then some (c.toNat - 55)
  else none

/-- Digit value of a character, defaulting to 0 for non-digits. -/
def charValD (c : Char) : Nat := (charVal c).getD 0

/-- Whether `c` is a digit of base `b` (`b ≤ 36`). -/
def isDigitB (b : Nat) (c : Char) : Bool :=
  match charVal c with
  | some v => decide (v < b)
  | none => false

/-- Value of a big-endian digit list in base `b`. -/
def digitsVal (b : Nat) (ds : List Nat) : Nat :=
  ds.foldl (fun a d => a * b + d) 0

/-! ## Go `big.Int.Text` (base conversion, little-endian worker with fuel) -/

/-- Little-endian digits of `n` in base `b`; `fuel ≥ n` makes it total and
structural (each step divides `n` by `b ≥ 2`). -/
def toDigitsRevAux (b : Nat) : Nat → Nat → List Nat
  | 0, _ => []
  | _ + 1, 0 => []
  | fuel + 1, n + 1 => ((n + 1) % b) :: toDigitsRevAux b fuel ((n + 1) / b)

/-- Go `big.Int.Text(b)` for a non-negative integer: minimal-length digit
string, `"0"` for zero, lowercase letters for digits above 9. -/
def bigIntText (b n : Nat) : List Char :=
  if n = 0 then ['0'] else ((toDigitsRevAux b n n).reverse.map digitChar)

/-- Go `fmt` zero-padding of a string to width `k` (`%0*s`): pads on the left
with `'0'`, never truncates. -/
def pad0 (k : Nat) (s : List Char) : List Char :=
  List.replicate (k - s.length) '0' ++ s

/-! ## Go `strings.Split` on a one-character separator -/

/-- Go `strings.Split(s, sep)` for a single-character separator. -/
def stringsSplit (sep : Char) : List Char → List (List Char)
  | [] => [[]]
  | c :: cs =>
    match stringsSplit sep cs with
    | [] => [[c]]
    | h :: t => if c = sep then [] :: h :: t else (c :: h) :: t

/-! ## Go `big.Int.SetString` -/

/-- Reads the longest prefix of base-`b` digits, accumulating the value; stops
at (and returns) the first non-digit. -/
def scanDigits (b : Nat) (acc : Nat) : List Char → Nat × List Char
  | [] => (acc, [])
  | c :: cs =>
    match charVal c with
    | some v => if v < b then scanDigits b (acc * b + v) cs else (acc, c :: cs)
    | none => (acc, c :: cs)

/-- Go `big.Int.SetString(s, b)` for `2 ≤ b ≤ 36`, restricted to inputs
without a `'-'` sign (the only callers pass segments of a `strings.Split` on
`'-'`, which cannot contain `'-'`). It consumes an optional `'+'` and the
longest digit prefix. The `Bool` is Go's `ok` result: true iff at least one
digit was read and the whole string was consumed. On failure the receiver
keeps the partial value (zero when no digit was read), which Go callers that
ignore `ok` then observe. -/
def bigIntSetString (b : Nat) (cs : List Char) : Nat × Bool :=
  let body := if cs.head? = some '+' then cs.tail else cs
  let r := scanDigits b 0 body
  (r.1, !body.isEmpty && r.2.isEmpty)

/-- Go `big.Int.SetBytes`: big-endian base-256 value of a byte slice. -/
def bigIntSetBytes (bs : List Nat) : Nat := digitsVal 256 bs

/-! ## Errors -/

/-- Error values surfaced by the embedded operations. Distinct constructors
stand for the distinct error objects of the source; `errCode` carries
collaborator errors through the models. -/
inductive GoError where
  | invalidJoinToken
  | digestInvalid
  | noValidPool
  | pemDecodeFailed
  | keyPairInvalid
  | parseRoleFailed
  | formatRoleFailed
  | errCode (n : Nat)
deriving DecidableEq

/-! ## Join-token codec (`GenerateJoinToken`, `getCAHashFromToken`) -/

/-- Model of `docker/distribution` `digest.ParseDigest`, restricted to the
`sha256:` algorithm prefix — the only shape the embedded callers build. A
digest string is valid iff the part after the colon is exactly 64 hex
characters (`Algorithm.Size()*2` for sha256, matching `[a-fA-F0-9]+`). -/
def parseDigest (s : List Char) : Except GoError (List Char) :=
  match s with
  | 's' :: 'h' :: 'a' :: '2' :: '5' :: '6' :: ':' :: hexPart =>
    if hexPart.length = 64 && hexPart.all (isDigitB 16) then .ok s
    else .error .digestInvalid
  | _ => .error .digestInvalid

/-- The root CA, reduced to the field the claims use: its content digest,
kept as the 256-bit value of the sha256 hash. -/
structure RootCA where
  digestVal : Nat

/-- The `Digest.Hex()` form of the root digest: 64 lowercase hex characters
(the canonical hex encoding of a 32-byte sha256 value). -/
def RootCA.digestHex (r : RootCA) : List Char :=
  pad0 64 (bigIntText 16 r.digestVal)

/-- The full textual digest `sha256:<hex>` stored in `RootCA.Digest`. -/
def RootCA.digestStr (r : RootCA) : List Char :=
  's' :: 'h' :: 'a' :: '2' :: '5' :: '6' :: ':' :: r.digestHex

def generatedSecretEntropyBytes : Nat := 16

def joinTokenBase : Nat := 36

/-- ceil(log(2^128-1, 36)) -/
def maxGeneratedSecretLength : Nat := 25

/-- ceil(log(2^256-1, 36)) -/
def base36DigestLen : Nat := 50

/-- `GenerateJoinToken`: the 16 random bytes read from the CSPRNG are an
explicit argument. Builds
`SWMTKN-1-<digest base36, zero-padded to 50>-<secret base36, zero-padded to 25>`. -/
def GenerateJoinToken (rootCA : RootCA) (secretBytes : List Nat) : List Char :=
  let nn := bigIntSetBytes secretBytes
  let dg := (bigIntSetString 16 rootCA.digestHex).1
  ['S', 'W', 'M', 'T', 'K', 'N', '-', '1', '-']
    ++ pad0 base36DigestLen (bigIntText joinTokenBase dg)
    ++ '-' :: pad0 maxGeneratedSecretLength (bigIntText joinTokenBase nn)

/-- `getCAHashFromToken`: split on `'-'`, require four segments with the
literal prefixes, base-36-decode the digest segment (ignoring `SetString`'s
`ok` result, as the source does) and re-encode as `sha256:<hex padded to 64>`
through `ParseDigest`. -/
def getCAHashFromToken (token : List Char) : Except GoError (List Char) :=
  match stringsSplit '-' token with
  | [s0, s1, s2, _s3] =>
    if s0 = ['S', 'W', 'M', 'T', 'K', 'N'] ∧ s1 = ['1'] then
      parseDigest ('s' :: 'h' :: 'a' :: '2' :: '5' :: '6' :: ':'
        :: pad0 64 (bigIntText 16 (bigIntSetString joinTokenBase s2).1))
    else .error .invalidJoinToken
  | _ => .error .invalidJoinToken

/-! ## Renewal loop (`RenewTLSConfig`), one post-trigger iteration -/

/-- A value published on the `updates` channel. -/
inductive CertificateUpdate where
  | errU (e : GoError)
  | roleU (role : List Char)
deriving DecidableEq

/-- The sub-steps of the renewal transaction, in source order. -/
inductive RenewStep where
  | requestCerts
  | buildClientConf
  | buildServerConf
  | loadClientConf
  | updateExternalCA
  | loadServerConf
deriving DecidableEq

/-- Outcomes of the fallible sub-steps of one renewal iteration
(`RequestAndSaveNewCertificates`, `NewClientTLSConfig`, `NewServerTLSConfig`,
`ClientTLSCreds.LoadNewTLSConfig`, `ServerTLSCreds.LoadNewTLSConfig`);
`none` is success. -/
structure RenewOutcomes where
  requestCerts : Option GoError
  buildClientConf : Option GoError
  buildServerConf : Option GoError
  loadClientConf : Option GoError
  loadServerConf : Option GoError

/-- The error update published for an outcome, if any. -/
def errUpdates : Option GoError → List CertificateUpdate
  | some e => [.errU e]
  | none => []

/-- One iteration of the renewal transaction (the body of `RenewTLSConfig`
after the `select`), as the list of sub-steps performed and the list of
updates sent: a failed issuance publishes its error and `continue`s; every
later failure publishes its error but falls through, and
`CertificateUpdate{Role}` is sent unconditionally at the end. -/
def renewIteration (o : RenewOutcomes) (role : List Char) :
    List RenewStep × List CertificateUpdate :=
  match o.requestCerts with
  | some e => ([.requestCerts], [.errU e])
  | none =>
    ([.requestCerts, .buildClientConf, .buildServerConf, .loadClientConf,
      .updateExternalCA, .loadServerConf],
     errUpdates o.buildClientConf ++ errUpdates o.buildServerConf
       ++ errUpdates o.loadClientConf ++ errUpdates o.loadServerConf
       ++ [.roleU role])

/-- The updates published by successive iterations of the renewal loop: the
loop body never returns after a sub-step failure, so each iteration's updates
are followed by the next iteration's. -/
def renewLoopUpdates (role : List Char) : List RenewOutcomes → List CertificateUpdate
  | [] => []
  | o :: rest => (renewIteration o role).2 ++ renewLoopUpdates role rest

/-! ## Renewal scheduling (`calculateRandomExpiry`) -/

/-- One minute in nanoseconds (Go `time.Minute`). -/
def minuteNs : Int := 60000000000

/-- Exact-arithmetic value of `int(duration.Minutes() * CertLowerRotationRange)`
with `CertLowerRotationRange = 0.5` (constant defined outside the embedded
file; value taken from the spec). `Int.tdiv` truncates toward zero exactly as
Go's `int()` conversion; the float rounding of `Minutes()` is idealized to
exact rational arithmetic. -/
def minValidity (d : Int) : Int := Int.tdiv d 120000000000

/-- Exact-arithmetic value of `int(duration.Minutes() * CertUpperRotationRange)`
with `CertUpperRotationRange = 0.8` (constant defined outside the embedded
file; value taken from the spec): `0.8 * d / minute = 4*d / 300e9`. -/
def maxValidity (d : Int) : Int := Int.tdiv (4 * d) 300000000000

/-- The `randomExpiry` minute count selected by `calculateRandomExpiry`:
deterministically `minValidity` when `maxValidity - minValidity < 1`,
otherwise `rand.Intn(maxValidity-minValidity) + minValidity`; the PRNG
outcome is the argument `rand`, reduced modulo the interval width (every
value `rand.Intn` can output is reached). -/
def randomExpiryMinutes (d : Int) (rand : Nat) : Int :=
  if maxValidity d - minValidity d < 1 then minValidity d
  else ((rand % (maxValidity d - minValidity d).toNat : Nat) : Int) + minValidity d

/-- `calculateRandomExpiry(validFrom, validUntil)` at instant `now`:
`validFrom.Add(randomExpiry minutes).Sub(now)`, clamped at zero. -/
def calculateRandomExpiry (validFrom validUntil now : Int) (rand : Nat) : Int :=
  let d := validUntil - validFrom
  let expiry := validFrom + randomExpiryMinutes d rand * minuteNs - now
  if expiry < 0 then 0 else expiry

/-! ## Signing policy (`SigningPolicy`) and the delegated signer date math -/

/-- The CSR whitelist of the signing profile. -/
structure CSRWhitelistM where
  publicKey : Bool
  publicKeyAlgorithm : Bool
  signatureAlgorithm : Bool

/-- The fields of the cfssl signing profile that the embedded code sets and
the date math consumes; durations in nanoseconds. -/
structure SigningProfileM where
  expiry : Int
  backdate : Int
  csrWhitelist : CSRWhitelistM

/-- `SigningPolicy(certExpiry)`: forces the expiration up to
`DefaultNodeCertExpiration` when below `MinNodeCertExpiration`, then adds the
backdate to the profile expiry and sets the profile backdate. The three
duration constants are defined outside the embedded file and are passed as
parameters (the spec fixes only their roles, not their values). -/
def SigningPolicy (minNodeCertExpiration defaultNodeCertExpiration certBackdate
    certExpiry : Int) : SigningProfileM :=
  let e := if certExpiry < minNodeCertExpiration then defaultNodeCertExpiration
           else certExpiry
  { expiry := e + certBackdate
    backdate := certBackdate
    csrWhitelist := ⟨true, true, true⟩ }

/-- Model of the delegated cfssl signer date math (`signer.FillTemplate`):
`NotBefore = now − profile.Backdate` and `NotAfter = NotBefore + profile.Expiry`
(cfssl's rounding of `now` to the whole minute is idealized away). Returns
`(NotBefore, NotAfter)`. -/
def signerValidityWindow (now : Int) (p : SigningProfileM) : Int × Int :=
  (now - p.backdate, now - p.backdate + p.expiry)

/-! ## Credential loading (`LoadTLSCreds`, `genTempPaths`) -/

/-- A pair of credential file paths (paths as character lists). -/
structure CertPaths where
  cert : List Char
  key : List Char

/-- `genTempPaths`: the hidden sibling paths, prepending `'.'` to the file
name (paths are modelled relative to their directory). -/
def genTempPaths (p : CertPaths) : CertPaths :=
  { cert := '.' :: p.cert, key := '.' :: p.key }

/-- The crypto collaborators of `LoadTLSCreds`, as oracles: whether
`pem.Decode` of the cert bytes yields a block, whether
`x509.ParseCertificate` succeeds, whether `X509Cert.Verify` under
`rootCA.Pool` succeeds, whether `tls.X509KeyPair(cert, key)` succeeds, and
whether `rootCA.Pool` is non-nil (the only failure source of
`NewServerTLSCredentials`/`NewClientTLSCredentials` on already-validated
material). -/
structure CryptoOps where
  pemOk : List Char → Bool
  parseCert : List Char → Option GoError
  verifyCert : List Char → Option GoError
  keyPairOk : List Char → List Char → Bool
  poolPresent : Bool

/-- Wrapping of a validated key pair as server then client credentials
(`NewServerTLSCredentials`, `NewClientTLSCredentials`): both fail exactly
when the root pool is absent. The result records the certificate and the key
actually used. -/
def wrapCreds (c : CryptoOps) (cert key : List Char) :
    Except GoError (List Char × List Char) :=
  if c.poolPresent then .ok (cert, key) else .error .noValidPool

/-- `LoadTLSCreds(rootCA, paths)` over an abstract disk (`ReadFile`): read
cert and key, PEM-decode and parse the cert, verify it under the root pool,
build the key pair — falling back to the hidden sibling key when the primary
key does not pair (returning the original pairing error when the sibling
also fails) — and wrap the credentials. -/
def LoadTLSCreds (c : CryptoOps) (disk : List Char → Except GoError (List Char))
    (paths : CertPaths) : Except GoError (List Char × List Char) :=
  match disk paths.cert with
  | .error e => .error e
  | .ok cert =>
    match disk paths.key with
    | .error e => .error e
    | .ok key =>
      if !(c.pemOk cert) then .error .pemDecodeFailed
      else
        match c.parseCert cert with
        | some e => .error e
        | none =>
          match c.verifyCert cert with
          | some e => .error e
          | none =>
            if c.keyPairOk cert key then wrapCreds c cert key
            else
              match disk (genTempPaths paths).key with
              | .error _ => .error .keyPairInvalid
              | .ok skey =>
                if c.keyPairOk cert skey then wrapCreds c cert skey
                else .error .keyPairInvalid

/-! ## Bootstrap (`LoadOrCreateSecurityConfig`) -/

/-- Outcome of `GetLocalRootCA`. -/
inductive LocalCAResult where
  | found
  | noLocalRootCA
  | otherErr (e : GoError)

/-- The collaborators of `LoadOrCreateSecurityConfig`, as oracles: the local
root CA load, the join token, the outcome of the `i`-th `GetRemoteCA`
attempt, `saveRootCA`, `LoadTLSCreds`, `rootCA.CanSign()`,
`IssueAndSaveNewCertificates`, `RequestAndSaveNewCertificates`, and the two
credential constructors. `none` means success. -/
structure BootstrapOracles where
  localCA : LocalCAResult
  token : List Char
  remoteCA : Nat → Option GoError
  saveRootCA : Option GoError
  loadTLSCreds : Option GoError
  canSign : Bool
  issueLocal : Option GoError
  requestRemote : Option GoError
  newServerCreds : Option GoError
  newClientCreds : Option GoError

/-- Counts of the effectful collaborator calls `LoadOrCreateSecurityConfig`
makes: `GetRemoteCA` attempts, `saveRootCA` calls,
`RequestAndSaveNewCertificates` calls (remote issuance) and
`IssueAndSaveNewCertificates` calls (local issuance). -/
structure BootstrapTrace where
  remoteFetches : Nat
  rootSaves : Nat
  issuanceRequests : Nat
  localIssuances : Nat
deriving DecidableEq

def emptyTrace : BootstrapTrace :=
  { remoteFetches := 0, rootSaves := 0, issuanceRequests := 0, localIssuances := 0 }

/-- The fetch loop `for i := 0; i != 5; i++ { GetRemoteCA; break on success }`:
`i` is the next attempt index, `fuel` the remaining iterations, `err` the
error of the previous attempt. Returns the number of attempts made and the
final value of `err`. -/
def fetchLoopAux (remote : Nat → Option GoError) :
    Nat → Nat → Option GoError → Nat × Option GoError
  | i, 0, err => (i, err)
  | i, fuel + 1, _ =>
    match remote i with
    | none => (i + 1, none)
    | some e => fetchLoopAux remote (i + 1) fuel (some e)

def fetchLoop (remote : Nat → Option GoError) : Nat × Option GoError :=
  fetchLoopAux remote 0 5 none

/-- Credential wrap-up shared by both issuance paths:
`NewServerTLSCredentials` then `NewClientTLSCredentials`. -/
def finishCreds (o : BootstrapOracles) (t : BootstrapTrace) :
    Option GoError × BootstrapTrace :=
  match o.newServerCreds with
  | some e => (some e, t)
  | none =>
    match o.newClientCreds with
    | some e => (some e, t)
    | none => (none, t)

/-- The node-credential phase: try `LoadTLSCreds`; on failure either issue
locally (when the root can sign) or request issuance from the remote CA, then
wrap the credentials. -/
def credsPhase (o : BootstrapOracles) (t : BootstrapTrace) :
    Option GoError × BootstrapTrace :=
  match o.loadTLSCreds with
  | none => (none, t)
  | some _ =>
    if o.canSign then
      match o.issueLocal with
      | some e => (some e, { t with localIssuances := t.localIssuances + 1 })
      | none => finishCreds o { t with localIssuances := t.localIssuances + 1 }
    else
      match o.requestRemote with
      | some e => (some e, { t with issuanceRequests := t.issuanceRequests + 1 })
      | none => finishCreds o { t with issuanceRequests := t.issuanceRequests + 1 }

/-- `LoadOrCreateSecurityConfig`: load the local root CA; on
`ErrNoLocalRootCA`, decode the token (if non-empty) into a digest pin, fetch
the remote root with the 5-attempt loop, persist it, and proceed to the
credential phase. Returns the error outcome and the trace of collaborator
calls. -/
def LoadOrCreateSecurityConfig (o : BootstrapOracles) :
    Option GoError × BootstrapTrace :=
  match o.localCA with
  | .otherErr e => (some e, emptyTrace)
  | .found => credsPhase o emptyTrace
  | .noLocalRootCA =>
    match (if o.token.isEmpty then none
           else match getCAHashFromToken o.token with
                | .ok _ => none
                | .error e => some e) with
    | some e => (some e, emptyTrace)
    | none =>
      match fetchLoop o.remoteCA with
      | (n, some e) => (some e, { emptyTrace with remoteFetches := n })
      | (n, none) =>
        match o.saveRootCA with
        | some e =>
          (some e, { remoteFetches := n, rootSaves := 1, issuanceRequests := 0,
                     localIssuances := 0 })
        | none =>
          credsPhase o { remoteFetches := n, rootSaves := 1, issuanceRequests := 0,
                         localIssuances := 0 }

/-! ## Role codec (`ParseRole`, `FormatRole`) -/

def ManagerRole : List Char := ['s', 'w', 'a', 'r', 'm', '-', 'm', 'a', 'n', 'a', 'g', 'e', 'r']

def WorkerRole : List Char := ['s', 'w', 'a', 'r', 'm', '-', 'w', 'o', 'r', 'k', 'e', 'r']

def CARole : List Char := ['s', 'w', 'a', 'r', 'm', '-', 'c', 'a']

/-- Modelled from the spec: the wire-level role enumeration `api.NodeRole`
(defined in the api package, outside the embedded file). Only the
distinctness of the two known values matters to the claims. -/
def NodeRoleWorker : Int := 0

/-- Modelled from the spec: the manager value of `api.NodeRole`. -/
def NodeRoleManager : Int := 1

/-- `ParseRole`: map the wire enumeration to the role string; any other wire
value is an error. -/
def ParseRole (apiRole : Int) : Except GoError (List Char) :=
  if apiRole = NodeRoleManager then .ok ManagerRole
  else if apiRole = NodeRoleWorker then .ok WorkerRole
  else .error .parseRoleFailed

/-- ASCII lowering of one character (the role strings are ASCII). -/
def toLowerChar (c : Char) : Char :=
  if 'A' ≤ c ∧ c ≤ 'Z' then Char.ofNat (c.toNat + 32) else c

/-- Go `strings.ToLower`, restricted to ASCII. -/
def stringsToLower (s : List Char) : List Char := s.map toLowerChar

/-- `FormatRole`: case-insensitively map a role string to the wire
enumeration; any other string is an error. -/
def FormatRole (role : List Char) : Except GoError Int :=
  if stringsToLower role = stringsToLower ManagerRole then .ok NodeRoleManager
  else if stringsToLower role = stringsToLower WorkerRole then .ok NodeRoleWorker
  else .error .formatRoleFailed

/-! ## `SecurityConfig.UpdateRootCA` -/

/-- The `SecurityConfig` state the claims touch: the guarded `rootCA` slot. -/
structure SecurityConfigState where
  rootCA : RootCA

/-- `SecurityConfig.RootCA()`. -/
def SecurityConfigState.RootCA (s : SecurityConfigState) : RootCA := s.rootCA

/-- `SecurityConfig.UpdateRootCA(cert, key, certExpiry, ...)`: runs the
`NewRootCA` constructor (a collaborator outside the embedded file, passed as
an oracle) and replaces the slot only when it succeeds; returns the new state
and the error. -/
def UpdateRootCA (s : SecurityConfigState)
    (NewRootCA : List Char → List Char → Int → Except GoError RootCA)
    (cert key : List Char) (certExpiry : Int) :
    SecurityConfigState × Option GoError :=
  match NewRootCA cert key certExpiry with
  | .ok r => ({ s with rootCA := r }, none)
  | .error e => (s, some e)

/-! ## Digit and base-conversion lemmas -/

theorem charVal_digitChar_fin : ∀ v : Fin 36, charVal (digitChar v.val) = some v.val := by
  decide

theorem charVal_digitChar_of_lt {v : Nat} (h : v < 36) : charVal (digitChar v) = some v :=
  charVal_digitChar_fin ⟨v, h⟩

theorem charValD_digitChar {v : Nat} (h : v < 36) : charValD (digitChar v) = v := by
  simp [charValD, charVal_digitChar_of_lt h]

theorem isDigitB_digitChar {b v : Nat} (hv : v < b) (hb : b ≤ 36) :
    isDigitB b (digitChar v) = true := by
  simp [isDigitB, charVal_digitChar_of_lt (lt_of_lt_of_le hv hb), hv]

theorem charVal_zeroChar : charVal '0' = some 0 := by decide

theorem charVal_hyphen : charVal '-' = none := by decide

theorem charVal_plus : charVal '+' = none := by decide

theorem isDigitB_zeroChar {b : Nat} (hb : 0 < b) : isDigitB b '0' = true := by
  simp [isDigitB, charVal_zeroChar, hb]

theorem charValD_zeroChar : charValD '0' = 0 := by decide

theorem ne_hyphen_of_isDigitB {b : Nat} {c : Char} (h : isDigitB b c = true) : c ≠ '-' := by
  intro he
  subst he
  rw [isDigitB, charVal_hyphen] at h
  exact Bool.false_ne_true h

theorem charValD_lt_of_isDigitB {b : Nat} {c : Char} (h : isDigitB b c = true) :
    charValD c < b := by
  rw [isDigitB] at h
  cases hc : charVal c with
  | none => rw [hc] at h; exact absurd h Bool.false_ne_true
  | some v =>
    rw [hc] at h
    simp only [decide_eq_true_eq] at h
    simpa [charValD, hc] using h

theorem digitsVal_append (b : Nat) (l : List Nat) (d : Nat) :
    digitsVal b (l ++ [d]) = digitsVal b l * b + d := by
  simp [digitsVal, List.foldl_append]

theorem digitsVal_replicate_zero (b m : Nat) (l : List Nat) :
    digitsVal b (List.replicate m 0 ++ l) = digitsVal b l := by
  induction m with
  | zero => simp
  | succ k ih =>
    have : List.replicate (k + 1) 0 ++ l = 0 :: (List.replicate k 0 ++ l) := by
      simp [List.replicate_succ]
    rw [this]
    simpa [digitsVal] using ih

theorem digitsVal_lt_aux (b : Nat) (l : List Nat) (_hb : 0 < b)
    (h : ∀ d ∈ l, d < b) :
    ∀ acc : Nat, l.foldl (fun a d => a * b + d) acc < (acc + 1) * b ^ l.length := by
  induction l with
  | nil => intro acc; simp
  | cons d ds ih =>
    intro acc
    have hd : d < b := h d (by simp)
    have hds : ∀ x ∈ ds, x < b := fun x hx => h x (by simp [hx])
    have h1 : acc * b + d + 1 ≤ (acc + 1) * b := by nlinarith
    calc (d :: ds).foldl (fun a d => a * b + d) acc
        = ds.foldl (fun a d => a * b + d) (acc * b + d) := by simp
      _ < (acc * b + d + 1) * b ^ ds.length := ih hds (acc * b + d)
      _ ≤ ((acc + 1) * b) * b ^ ds.length := Nat.mul_le_mul_right _ h1
      _ = (acc + 1) * b ^ (d :: ds).length := by rw [List.length_cons]; ring

theorem digitsVal_lt (b : Nat) (l : List Nat) (hb : 0 < b) (h : ∀ d ∈ l, d < b) :
    digitsVal b l < b ^ l.length := by
  have := digitsVal_lt_aux b l hb h 0
  simpa [digitsVal] using this

theorem toDigitsRevAux_val (b : Nat) (hb : 2 ≤ b) :
    ∀ fuel n, n ≤ fuel → digitsVal b (toDigitsRevAux b fuel n).reverse = n := by
  intro fuel
  induction fuel with
  | zero =>
    intro n hn
    have : n = 0 := Nat.le_zero.mp hn
    subst this
    simp [toDigitsRevAux, digitsVal]
  | succ f ih =>
    intro n hn
    match n with
    | 0 => simp [toDigitsRevAux, digitsVal]
    | m + 1 =>
      have hdiv : (m + 1) / b ≤ f := by
        have : (m + 1) / b < m + 1 := Nat.div_lt_self (Nat.succ_pos m) (by omega)
        omega
      have hv := ih ((m + 1) / b) hdiv
      have hunfold : toDigitsRevAux b (f + 1) (m + 1)
          = ((m + 1) % b) :: toDigitsRevAux b f ((m + 1) / b) := rfl
      rw [hunfold, List.reverse_cons, digitsVal_append, hv, Nat.mul_comm]
      exact Nat.div_add_mod (m + 1) b

theorem toDigitsRevAux_mem_lt (b : Nat) (_hb : 2 ≤ b) :
    ∀ fuel n d, d ∈ toDigitsRevAux b fuel n → d < b := by
  intro fuel
  induction fuel with
  | zero => intro n d hd; simp [toDigitsRevAux] at hd
  | succ f ih =>
    intro n d hd
    match n with
    | 0 => simp [toDigitsRevAux] at hd
    | m + 1 =>
      have hunfold : toDigitsRevAux b (f + 1) (m + 1)
          = ((m + 1) % b) :: toDigitsRevAux b f ((m + 1) / b) := rfl
      rw [hunfold] at hd
      rcases List.mem_cons.mp hd with h | h
      · subst h; exact Nat.mod_lt _ (by omega)
      · exact ih _ d h

theorem toDigitsRevAux_length (b : Nat) (hb : 2 ≤ b) :
    ∀ fuel n k, n ≤ fuel → n < b ^ k → (toDigitsRevAux b fuel n).length ≤ k := by
  intro fuel
  induction fuel with
  | zero =>
    intro n k hn _
    have : n = 0 := Nat.le_zero.mp hn
    subst this
    simp [toDigitsRevAux]
  | succ f ih =>
    intro n k hn hk
    match n with
    | 0 => simp [toDigitsRevAux]
    | m + 1 =>
      match k with
      | 0 => simp at hk
      | j + 1 =>
        have hdiv : (m + 1) / b ≤ f := by
          have : (m + 1) / b < m + 1 := Nat.div_lt_self (Nat.succ_pos m) (by omega)
          omega
        have hdivlt : (m + 1) / b < b ^ j := by
          rw [Nat.div_lt_iff_lt_mul (by omega : 0 < b)]
          calc m + 1 < b ^ (j + 1) := hk
            _ = b ^ j * b := by rw [pow_succ]
        have := ih ((m + 1) / b) j hdiv hdivlt
        have hunfold : toDigitsRevAux b (f + 1) (m + 1)
            = ((m + 1) % b) :: toDigitsRevAux b f ((m + 1) / b) := rfl
        rw [hunfold]
        simpa using this

theorem bigIntText_mem {b n : Nat} (hb : 2 ≤ b) (hb36 : b ≤ 36) :
    ∀ c ∈ bigIntText b n, isDigitB b c = true := by
  intro c hc
  by_cases hn : n = 0
  · subst hn
    simp [bigIntText] at hc
    subst hc
    exact isDigitB_zeroChar (by omega)
  · rw [bigIntText, if_neg hn] at hc
    rcases List.mem_map.mp hc with ⟨d, hd, hdc⟩
    have hdb : d < b := toDigitsRevAux_mem_lt b hb n n d (List.mem_reverse.mp hd)
    subst hdc
    exact isDigitB_digitChar hdb hb36

theorem bigIntText_length_le {b n k : Nat} (hb : 2 ≤ b) (hk : 1 ≤ k) (h : n < b ^ k) :
    (bigIntText b n).length ≤ k := by
  by_cases hn : n = 0
  · subst hn; simpa [bigIntText] using hk
  · rw [bigIntText, if_neg hn]
    simpa using toDigitsRevAux_length b hb n n k le_rfl h

theorem bigIntText_val {b n : Nat} (hb : 2 ≤ b) (hb36 : b ≤ 36) :
    digitsVal b ((bigIntText b n).map charValD) = n := by
  by_cases hn : n = 0
  · subst hn; simp [bigIntText, digitsVal, charValD_zeroChar]
  · rw [bigIntText, if_neg hn, List.map_map]
    have hmap : (toDigitsRevAux b n n).reverse.map (charValD ∘ digitChar)
        = (toDigitsRevAux b n n).reverse := by
      conv_rhs => rw [← List.map_id ((toDigitsRevAux b n n).reverse)]
      apply List.map_congr_left
      intro d hd
      have hdb : d < b := toDigitsRevAux_mem_lt b hb n n d (List.mem_reverse.mp hd)
      exact charValD_digitChar (lt_of_lt_of_le hdb hb36)
    rw [hmap]
    exact toDigitsRevAux_val b hb n n le_rfl

theorem lt_pow_length_bigIntText {b n : Nat} (hb : 2 ≤ b) (hb36 : b ≤ 36) :
    n < b ^ (bigIntText b n).length := by
  have hv := bigIntText_val (n := n) hb hb36
  have hd : ∀ d ∈ (bigIntText b n).map charValD, d < b := by
    intro d hd
    rcases List.mem_map.mp hd with ⟨c, hc, hcd⟩
    subst hcd
    exact charValD_lt_of_isDigitB (bigIntText_mem hb hb36 c hc)
  have := digitsVal_lt b ((bigIntText b n).map charValD) (by omega) hd
  rw [hv] at this
  simpa using this

theorem pad0_length {k : Nat} {l : List Char} (h : l.length ≤ k) :
    (pad0 k l).length = k := by
  simp [pad0]
  omega

theorem pad0_mem {k : Nat} {l : List Char} {c : Char} (h : c ∈ pad0 k l) :
    c = '0' ∨ c ∈ l := by
  rw [pad0] at h
  rcases List.mem_append.mp h with h | h
  · exact Or.inl (List.eq_of_mem_replicate h)
  · exact Or.inr h

theorem pad0_val (b k : Nat) (l : List Char) :
    digitsVal b ((pad0 k l).map charValD) = digitsVal b (l.map charValD) := by
  rw [pad0, List.map_append, List.map_replicate, charValD_zeroChar]
  exact digitsVal_replicate_zero b _ _

theorem pad0_eq_self {k : Nat} {l : List Char} (h : k ≤ l.length) : pad0 k l = l := by
  simp [pad0, Nat.sub_eq_zero_of_le h]

theorem scanDigits_all (b : Nat) :
    ∀ (cs : List Char) (acc : Nat), (∀ c ∈ cs, isDigitB b c = true) →
      scanDigits b acc cs = (cs.foldl (fun a c => a * b + charValD c) acc, []) := by
  intro cs
  induction cs with
  | nil => intro acc _; simp [scanDigits]
  | cons c cs ih =>
    intro acc h
    have hc := h c (by simp)
    rw [isDigitB] at hc
    cases hv : charVal c with
    | none => rw [hv] at hc; exact absurd hc Bool.false_ne_true
    | some v =>
      rw [hv] at hc
      simp only [decide_eq_true_eq] at hc
      have hcs : ∀ x ∈ cs, isDigitB b x = true := fun x hx => h x (by simp [hx])
      have hD : charValD c = v := by simp [charValD, hv]
      simp [scanDigits, hv, hc, ih (acc * b + v) hcs, hD]

theorem foldl_charValD (b : Nat) (cs : List Char) :
    cs.foldl (fun a c => a * b + charValD c) 0 = digitsVal b (cs.map charValD) := by
  simp [digitsVal, List.foldl_map]

theorem bigIntSetString_all {b : Nat} {cs : List Char} (hne : cs ≠ [])
    (h : ∀ c ∈ cs, isDigitB b c = true) :
    bigIntSetString b cs = (digitsVal b (cs.map charValD), true) := by
  have hhead : ¬(cs.head? = some '+') := by
    intro hq
    cases cs with
    | nil => simp at hq
    | cons c cs' =>
      simp at hq
      subst hq
      have := h '+' (by simp)
      rw [isDigitB, charVal_plus] at this
      exact Bool.false_ne_true this
  rw [bigIntSetString]
  simp only [if_neg hhead]
  rw [scanDigits_all b cs 0 h, foldl_charValD]
  simp [List.isEmpty_iff, hne]

theorem stringsSplit_ne_nil (sep : Char) (l : List Char) : stringsSplit sep l ≠ [] := by
  cases l with
  | nil => simp [stringsSplit]
  | cons c cs =>
    rw [stringsSplit]
    cases h : stringsSplit sep cs with
    | nil => simp
    | cons hd tl => by_cases hc : c = sep <;> simp [hc]

theorem stringsSplit_no_sep (sep : Char) (a : List Char) (h : ∀ c ∈ a, c ≠ sep) :
    stringsSplit sep a = [a] := by
  induction a with
  | nil => rfl
  | cons c cs ih =>
    have hc : c ≠ sep := h c (by simp)
    have hcs := ih (fun x hx => h x (by simp [hx]))
    rw [stringsSplit, hcs]
    simp [hc]

theorem stringsSplit_append (sep : Char) (a rest : List Char) (h : ∀ c ∈ a, c ≠ sep) :
    stringsSplit sep (a ++ sep :: rest) = a :: stringsSplit sep rest := by
  induction a with
  | nil =>
    rw [List.nil_append, stringsSplit]
    cases hq : stringsSplit sep rest with
    | nil => exact absurd hq (stringsSplit_ne_nil sep rest)
    | cons hd tl => simp [← hq]
  | cons c cs ih =>
    have hc : c ≠ sep := h c (by simp)
    have hcs := ih (fun x hx => h x (by simp [hx]))
    rw [List.cons_append, stringsSplit, hcs]
    simp [hc]

theorem token_split (A B : List Char) (hA : ∀ c ∈ A, c ≠ '-') (hB : ∀ c ∈ B, c ≠ '-') :
    stringsSplit '-' (['S', 'W', 'M', 'T', 'K', 'N', '-', '1', '-'] ++ A ++ '-' :: B)
      = [['S', 'W', 'M', 'T', 'K', 'N'], ['1'], A, B] := by
  have h1 : ['S', 'W', 'M', 'T', 'K', 'N', '-', '1', '-'] ++ A ++ '-' :: B
      = ['S', 'W', 'M', 'T', 'K', 'N'] ++ '-' :: (['1'] ++ '-' :: (A ++ '-' :: B)) := by
    simp
  rw [h1, stringsSplit_append _ _ _ (by decide), stringsSplit_append _ _ _ (by decide),
    stringsSplit_append _ _ _ hA, stringsSplit_no_sep _ _ hB]

theorem pad0_ne_nil {k : Nat} {l : List Char} (hk : 1 ≤ k) : pad0 k l ≠ [] := by
  intro h
  have hlen := congrArg List.length h
  rw [pad0] at hlen
  simp only [List.length_append, List.length_replicate, List.length_nil] at hlen
  omega

theorem pad0_bigIntText_digits {b k n : Nat} (hb : 2 ≤ b) (hb36 : b ≤ 36) :
    ∀ c ∈ pad0 k (bigIntText b n), isDigitB b c = true := by
  intro c hc
  rcases pad0_mem hc with h0 | hmem
  · subst h0; exact isDigitB_zeroChar (by omega)
  · exact bigIntText_mem hb hb36 c hmem

theorem pad0_bigIntText_val {b k n : Nat} (hb : 2 ≤ b) (hb36 : b ≤ 36) :
    digitsVal b ((pad0 k (bigIntText b n)).map charValD) = n := by
  rw [pad0_val]
  exact bigIntText_val hb hb36

theorem pad0_setString {b n : Nat} (k : Nat) (hb : 2 ≤ b) (hb36 : b ≤ 36) (hk : 1 ≤ k) :
    bigIntSetString b (pad0 k (bigIntText b n)) = (n, true) := by
  rw [bigIntSetString_all (pad0_ne_nil hk) (pad0_bigIntText_digits hb hb36),
    pad0_bigIntText_val hb hb36]

theorem pow16_64_eq : (16 : Nat) ^ 64 = 2 ^ 256 := by norm_num

theorem two_pow_256_lt_36_pow_50 : (2 : Nat) ^ 256 < 36 ^ 50 := by norm_num

/-- Claim C1: for every RootCA (any 256-bit digest value, leading hex zeros
included) and every outcome of the 16 random secret bytes, decoding the
generated join token with `getCAHashFromToken` succeeds and yields exactly
the root CA's digest string. -/
theorem c1_join_token_roundtrip (r : RootCA) (secretBytes : List Nat)
    (hd : r.digestVal < 2 ^ 256)
    (_hlen : secretBytes.length = generatedSecretEntropyBytes)
    (_hbytes : ∀ x ∈ secretBytes, x < 256) :
    getCAHashFromToken (GenerateJoinToken r secretBytes) = .ok r.digestStr := by
  have hdg : (bigIntSetString 16 r.digestHex).1 = r.digestVal := by
    rw [RootCA.digestHex, pad0_setString 64 (by norm_num) (by norm_num) (by norm_num)]
  have htok : GenerateJoinToken r secretBytes
      = ['S', 'W', 'M', 'T', 'K', 'N', '-', '1', '-']
        ++ pad0 base36DigestLen (bigIntText joinTokenBase (bigIntSetString 16 r.digestHex).1)
        ++ '-' :: pad0 maxGeneratedSecretLength
            (bigIntText joinTokenBase (bigIntSetBytes secretBytes)) := rfl
  have hAh : ∀ c ∈ pad0 base36DigestLen
      (bigIntText joinTokenBase (bigIntSetString 16 r.digestHex).1), c ≠ '-' :=
    fun c hc => ne_hyphen_of_isDigitB
      (pad0_bigIntText_digits (by norm_num [joinTokenBase]) (by norm_num [joinTokenBase]) c hc)
  have hBh : ∀ c ∈ pad0 maxGeneratedSecretLength
      (bigIntText joinTokenBase (bigIntSetBytes secretBytes)), c ≠ '-' :=
    fun c hc => ne_hyphen_of_isDigitB
      (pad0_bigIntText_digits (by norm_num [joinTokenBase]) (by norm_num [joinTokenBase]) c hc)
  rw [htok, getCAHashFromToken, token_split _ _ hAh hBh]
  simp only [and_self, if_true, reduceIte]
  rw [show (joinTokenBase : Nat) = 36 from rfl, pad0_setString base36DigestLen
    (by norm_num) (by norm_num) (by norm_num [base36DigestLen])]
  rw [hdg, parseDigest]
  have hlen64 : (pad0 64 (bigIntText 16 r.digestVal)).length = 64 :=
    pad0_length (bigIntText_length_le (by norm_num) (by norm_num) (by rw [pow16_64_eq]; exact hd))
  have hhex : (pad0 64 (bigIntText 16 r.digestVal)).all (isDigitB 16) = true :=
    List.all_eq_true.mpr (pad0_bigIntText_digits (by norm_num) (by norm_num))
  simp only [hlen64, hhex, Bool.and_self, and_self, if_true, reduceIte]
  rfl

theorem digestHex_roundtrip (r : RootCA) :
    (bigIntSetString 16 r.digestHex).1 = r.digestVal := by
  rw [RootCA.digestHex, pad0_setString 64 (by norm_num) (by norm_num) (by norm_num)]

theorem bigIntText_length_gt_64 {v : Nat} (hv : 2 ^ 256 ≤ v) :
    64 < (bigIntText 16 v).length := by
  by_contra h
  push_neg at h
  have h1 : v < 16 ^ (bigIntText 16 v).length :=
    lt_pow_length_bigIntText (by norm_num) (by norm_num)
  have h2 : (16 : Nat) ^ (bigIntText 16 v).length ≤ 16 ^ 64 :=
    Nat.pow_le_pow_right (by norm_num) h
  rw [pow16_64_eq] at h2
  omega


theorem parseDigest_pad (v : Nat) :
    parseDigest ('s' :: 'h' :: 'a' :: '2' :: '5' :: '6' :: ':'
        :: pad0 64 (bigIntText 16 v))
      = if v < 2 ^ 256 then
          .ok ('s' :: 'h' :: 'a' :: '2' :: '5' :: '6' :: ':'
            :: pad0 64 (bigIntText 16 v))
        else .error .digestInvalid := by
  by_cases hv : v < 2 ^ 256
  · rw [if_pos hv, parseDigest]
    have hlen64 : (pad0 64 (bigIntText 16 v)).length = 64 :=
      pad0_length (bigIntText_length_le (by norm_num) (by norm_num)
        (by rw [pow16_64_eq]; exact hv))
    have hhex : (pad0 64 (bigIntText 16 v)).all (isDigitB 16) = true :=
      List.all_eq_true.mpr (pad0_bigIntText_digits (by norm_num) (by norm_num))
    simp [hlen64, hhex]
  · rw [if_neg hv, parseDigest]
    have hgt : 64 < (bigIntText 16 v).length := bigIntText_length_gt_64 (by omega)
    have hself : pad0 64 (bigIntText 16 v) = bigIntText 16 v := pad0_eq_self (by omega)
    have hlenne : (bigIntText 16 v).length ≠ 64 := by omega
    simp [hself, hlenne]

theorem getCAHash_four {token s2 s3 : List Char}
    (h : stringsSplit '-' token = [['S', 'W', 'M', 'T', 'K', 'N'], ['1'], s2, s3]) :
    getCAHashFromToken token
      = parseDigest ('s' :: 'h' :: 'a' :: '2' :: '5' :: '6' :: ':'
          :: pad0 64 (bigIntText 16 (bigIntSetString 36 s2).1)) := by
  rw [getCAHashFromToken, h]
  simp [joinTokenBase]

/-- Claim C2 counterexample: the token `SWMTKN-1-!-x` has a digest segment
`!` that is not base-36 (the claimed precondition for successful decoding),
yet `getCAHashFromToken` succeeds and returns the all-zero digest, because
the source ignores `SetString`'s failure result. -/
theorem c2_invalid_digest_counterexample :
    getCAHashFromToken ['S', 'W', 'M', 'T', 'K', 'N', '-', '1', '-', '!', '-', 'x']
        = .ok ('s' :: 'h' :: 'a' :: '2' :: '5' :: '6' :: ':' :: List.replicate 64 '0')
      ∧ isDigitB 36 '!' = false :=
  ⟨rfl, rfl⟩

/-- Claim C2 (amended): `getCAHashFromToken` returns an error unless the
string splits on `-` into exactly four segments whose first two are the
literals `SWMTKN` and `1` and the value of the longest base-36 digit prefix
of the third segment (Go `SetString` partial semantics: characters after the
first invalid one are ignored, and an empty digit prefix decodes to zero)
fits in 32 bytes; on success it returns `sha256:` followed by that value in
hex, zero-padded to 64 characters. -/
theorem c2_token_decode_characterization (token : List Char) :
    ((∃ d, getCAHashFromToken token = .ok d) ↔
      (∃ s2 s3, stringsSplit '-' token
          = [['S', 'W', 'M', 'T', 'K', 'N'], ['1'], s2, s3]
        ∧ (bigIntSetString 36 s2).1 < 2 ^ 256))
    ∧ (∀ s2 s3, stringsSplit '-' token
          = [['S', 'W', 'M', 'T', 'K', 'N'], ['1'], s2, s3] →
        (bigIntSetString 36 s2).1 < 2 ^ 256 →
        getCAHashFromToken token
          = .ok ('s' :: 'h' :: 'a' :: '2' :: '5' :: '6' :: ':'
              :: pad0 64 (bigIntText 16 (bigIntSetString 36 s2).1))) := by
  have hmain : ∀ s2 s3 : List Char,
      stringsSplit '-' token = [['S', 'W', 'M', 'T', 'K', 'N'], ['1'], s2, s3] →
      (bigIntSetString 36 s2).1 < 2 ^ 256 →
      getCAHashFromToken token
        = .ok ('s' :: 'h' :: 'a' :: '2' :: '5' :: '6' :: ':'
            :: pad0 64 (bigIntText 16 (bigIntSetString 36 s2).1)) := by
    intro s2 s3 hsp hv
    rw [getCAHash_four hsp, parseDigest_pad, if_pos hv]
  refine ⟨⟨?_, ?_⟩, hmain⟩
  · rintro ⟨d, hd⟩
    rcases hsp : stringsSplit '-' token with
        _ | ⟨s0, _ | ⟨s1, _ | ⟨s2, _ | ⟨s3, _ | ⟨s4, l5⟩⟩⟩⟩⟩ <;>
      simp only [getCAHashFromToken, hsp] at hd <;>
      try exact Except.noConfusion hd
    by_cases hc : s0 = ['S', 'W', 'M', 'T', 'K', 'N'] ∧ s1 = ['1']
    · rw [if_pos hc] at hd
      rcases hc with ⟨hc0, hc1⟩
      subst hc0
      subst hc1
      rw [show (joinTokenBase : Nat) = 36 from rfl, parseDigest_pad] at hd
      by_cases hv : (bigIntSetString 36 s2).1 < 2 ^ 256
      · exact ⟨s2, s3, rfl, hv⟩
      · rw [if_neg hv] at hd
        exact Except.noConfusion hd
    · rw [if_neg hc] at hd
      exact Except.noConfusion hd
  · rintro ⟨s2, s3, hsp, hv⟩
    exact ⟨_, hmain s2 s3 hsp hv⟩

/-- Witness for the amended C2 at the concrete token `SWMTKN-1-z-q`. -/
theorem c2_token_decode_witness :
    getCAHashFromToken ['S', 'W', 'M', 'T', 'K', 'N', '-', '1', '-', 'z', '-', 'q']
      = .ok ('s' :: 'h' :: 'a' :: '2' :: '5' :: '6' :: ':'
          :: pad0 64 (bigIntText 16 (bigIntSetString 36 ['z']).1)) :=
  (c2_token_decode_characterization
      ['S', 'W', 'M', 'T', 'K', 'N', '-', '1', '-', 'z', '-', 'q']).2
    ['z'] ['q'] (by rfl) (by decide)

/-- Witness for C1 at a concrete digest value (255, whose hex form has 62
leading zeros) and a concrete secret. -/
theorem c1_join_token_roundtrip_witness :
    getCAHashFromToken (GenerateJoinToken ⟨255⟩ (List.replicate 16 0))
      = .ok (RootCA.digestStr ⟨255⟩) :=
  c1_join_token_roundtrip ⟨255⟩ (List.replicate 16 0) (by norm_num)
    (by simp [generatedSecretEntropyBytes])
    (by intro x hx; rw [List.eq_of_mem_replicate hx]; norm_num)

/-- Claim C3 counterexample: the token generated for the all-zero digest and
all-zero secret is 85 characters long, not 83 as claimed. -/
theorem c3_token_length_counterexample :
    (GenerateJoinToken ⟨0⟩ (List.replicate 16 0)).length = 85
      ∧ (GenerateJoinToken ⟨0⟩ (List.replicate 16 0)).length ≠ 83 :=
  ⟨rfl, by decide⟩

theorem two_pow_128_lt_36_pow_25 : (2 : Nat) ^ 128 < 36 ^ 25 := by norm_num

theorem pow256_16_eq : (256 : Nat) ^ 16 = 2 ^ 128 := by norm_num

/-- Claim C3 (amended): every generated token has the shape
`SWMTKN-1-<digest>-<secret>` with the digest segment exactly 50 base-36
characters, the secret segment exactly 25 base-36 characters, and the whole
token exactly 85 characters long including hyphens (not 83: the prefix
`SWMTKN-1-` already has 9 characters, and 9+50+1+25 = 85). -/
theorem c3_join_token_shape (r : RootCA) (secretBytes : List Nat)
    (hd : r.digestVal < 2 ^ 256)
    (hlen : secretBytes.length = generatedSecretEntropyBytes)
    (hbytes : ∀ x ∈ secretBytes, x < 256) :
    ∃ A B, GenerateJoinToken r secretBytes
        = ['S', 'W', 'M', 'T', 'K', 'N', '-', '1', '-'] ++ A ++ '-' :: B
      ∧ A.length = 50 ∧ B.length = 25
      ∧ (∀ c ∈ A, isDigitB 36 c = true) ∧ (∀ c ∈ B, isDigitB 36 c = true)
      ∧ (GenerateJoinToken r secretBytes).length = 85 := by
  have hnn : bigIntSetBytes secretBytes < 36 ^ 25 := by
    have h1 : bigIntSetBytes secretBytes < 256 ^ secretBytes.length :=
      digitsVal_lt 256 secretBytes (by norm_num) hbytes
    rw [hlen] at h1
    have h2 : (256 : Nat) ^ generatedSecretEntropyBytes = 2 ^ 128 := pow256_16_eq
    rw [h2] at h1
    exact lt_trans h1 two_pow_128_lt_36_pow_25
  have hdg : (bigIntSetString 16 r.digestHex).1 = r.digestVal := digestHex_roundtrip r
  have hAlen : (pad0 base36DigestLen
      (bigIntText joinTokenBase (bigIntSetString 16 r.digestHex).1)).length = 50 := by
    rw [hdg]
    exact pad0_length (bigIntText_length_le (by norm_num [joinTokenBase])
      (by norm_num [base36DigestLen])
      (lt_trans hd (by norm_num [joinTokenBase, base36DigestLen])))
  have hBlen : (pad0 maxGeneratedSecretLength
      (bigIntText joinTokenBase (bigIntSetBytes secretBytes))).length = 25 :=
    pad0_length (bigIntText_length_le (by norm_num [joinTokenBase])
      (by norm_num [maxGeneratedSecretLength])
      (by rw [show (joinTokenBase : Nat) = 36 from rfl,
              show (maxGeneratedSecretLength : Nat) = 25 from rfl]; exact hnn))
  refine ⟨_, _, rfl, hAlen, hBlen,
    pad0_bigIntText_digits (by norm_num [joinTokenBase]) (by norm_num [joinTokenBase]),
    pad0_bigIntText_digits (by norm_num [joinTokenBase]) (by norm_num [joinTokenBase]),
    ?_⟩
  have : GenerateJoinToken r secretBytes
      = ['S', 'W', 'M', 'T', 'K', 'N', '-', '1', '-']
        ++ pad0 base36DigestLen (bigIntText joinTokenBase (bigIntSetString 16 r.digestHex).1)
        ++ '-' :: pad0 maxGeneratedSecretLength
            (bigIntText joinTokenBase (bigIntSetBytes secretBytes)) := rfl
  rw [this]
  simp only [List.length_append, List.length_cons]
  rw [hAlen, hBlen]
  rfl

/-- Witness for the amended C3 at the all-zero digest and secret. -/
theorem c3_join_token_shape_witness :
    ∃ A B, GenerateJoinToken ⟨0⟩ (List.replicate 16 0)
        = ['S', 'W', 'M', 'T', 'K', 'N', '-', '1', '-'] ++ A ++ '-' :: B
      ∧ A.length = 50 ∧ B.length = 25
      ∧ (∀ c ∈ A, isDigitB 36 c = true) ∧ (∀ c ∈ B, isDigitB 36 c = true)
      ∧ (GenerateJoinToken ⟨0⟩ (List.replicate 16 0)).length = 85 :=
  c3_join_token_shape ⟨0⟩ (List.replicate 16 0) (by norm_num)
    (by simp [generatedSecretEntropyBytes])
    (by intro x hx; rw [List.eq_of_mem_replicate hx]; norm_num)

/-- Claim C4 counterexample: an iteration in which building the client TLS
config fails still performs every remaining sub-step and still publishes the
success update `CertificateUpdate{Role}` after the error update. -/
theorem c4_renew_counterexample :
    renewIteration
        { requestCerts := none, buildClientConf := some (.errCode 7),
          buildServerConf := none, loadClientConf := none, loadServerConf := none }
        WorkerRole
      = ([.requestCerts, .buildClientConf, .buildServerConf, .loadClientConf,
          .updateExternalCA, .loadServerConf],
         [.errU (.errCode 7), .roleU WorkerRole])
    ∧ CertificateUpdate.roleU WorkerRole
        ∈ (renewIteration
            { requestCerts := none, buildClientConf := some (.errCode 7),
              buildServerConf := none, loadClientConf := none, loadServerConf := none }
            WorkerRole).2 :=
  ⟨rfl, by decide⟩

/-- Claim C4 (amended): a failed issuance publishes its error and cuts the
iteration short (no further sub-step runs, the loop continues); a failure in
any later sub-step publishes its error but the remaining sub-steps are still
performed and the success update `{role}` is still published at the end of
the iteration, so the success update is published exactly when issuance
succeeded, not when the whole iteration was error-free; the loop never exits
after a failure — the next iteration's updates always follow. -/
theorem c4_renew_iteration_behavior (o : RenewOutcomes) (role : List Char)
    (rest : List RenewOutcomes) :
    (∀ e, o.requestCerts = some e →
        renewIteration o role = ([.requestCerts], [.errU e]))
    ∧ (o.requestCerts = none →
        (renewIteration o role).1
            = [.requestCerts, .buildClientConf, .buildServerConf, .loadClientConf,
               .updateExternalCA, .loadServerConf]
          ∧ (renewIteration o role).2
            = errUpdates o.buildClientConf ++ errUpdates o.buildServerConf
                ++ errUpdates o.loadClientConf ++ errUpdates o.loadServerConf
                ++ [.roleU role])
    ∧ (CertificateUpdate.roleU role ∈ (renewIteration o role).2 ↔ o.requestCerts = none)
    ∧ (o.requestCerts = none → ∀ e,
        (o.buildClientConf = some e ∨ o.buildServerConf = some e
          ∨ o.loadClientConf = some e ∨ o.loadServerConf = some e) →
        CertificateUpdate.errU e ∈ (renewIteration o role).2)
    ∧ renewLoopUpdates role (o :: rest)
        = (renewIteration o role).2 ++ renewLoopUpdates role rest := by
  refine ⟨?_, ?_, ?_, ?_, rfl⟩
  · intro e he
    simp [renewIteration, he]
  · intro hn
    constructor <;> simp [renewIteration, hn]
  · cases he : o.requestCerts with
    | none => simp [renewIteration, he]
    | some e => simp [renewIteration, he]
  · intro hn e hor
    rcases hor with h | h | h | h <;> simp [renewIteration, hn, errUpdates, h]

/-- Witness for the amended C4: both branches exercised at concrete outcomes. -/
theorem c4_renew_iteration_behavior_witness :
    renewIteration
        { requestCerts := some (.errCode 3), buildClientConf := none,
          buildServerConf := none, loadClientConf := none, loadServerConf := none }
        ManagerRole
      = ([.requestCerts], [.errU (.errCode 3)]) :=
  (c4_renew_iteration_behavior
      { requestCerts := some (.errCode 3), buildClientConf := none,
        buildServerConf := none, loadClientConf := none, loadServerConf := none }
      ManagerRole []).1 (.errCode 3) rfl

theorem minValidity_bounds (d : Int) (hd : 0 ≤ d) :
    120000000000 * minValidity d ≤ d ∧ d < 120000000000 * (minValidity d + 1) := by
  rw [minValidity]
  lift d to Nat using hd
  have h1 : Int.tdiv (↑d) 120000000000 = ((d / 120000000000 : Nat) : Int) := by
    exact_mod_cast (Int.ofNat_tdiv d 120000000000).symm
  rw [h1]
  have h2 := Nat.div_add_mod d 120000000000
  have h3 : d % 120000000000 < 120000000000 := Nat.mod_lt d (by norm_num)
  constructor <;> exact_mod_cast (by omega)

theorem maxValidity_bounds (d : Int) (hd : 0 ≤ d) :
    300000000000 * maxValidity d ≤ 4 * d ∧ 4 * d < 300000000000 * (maxValidity d + 1) := by
  rw [maxValidity]
  have h4 : (0 : Int) ≤ 4 * d := by omega
  generalize hq : 4 * d = q at *
  lift q to Nat using h4
  have h1 : Int.tdiv (↑q) 300000000000 = ((q / 300000000000 : Nat) : Int) := by
    exact_mod_cast (Int.ofNat_tdiv q 300000000000).symm
  rw [h1]
  have h2 := Nat.div_add_mod q 300000000000
  have h3 : q % 300000000000 < 300000000000 := Nat.mod_lt q (by norm_num)
  constructor <;> exact_mod_cast (by omega)

theorem randomExpiryMinutes_bounds (d : Int) (rand : Nat) (_hd : 0 ≤ d) :
    minValidity d ≤ randomExpiryMinutes d rand
    ∧ (¬(maxValidity d - minValidity d < 1) →
        randomExpiryMinutes d rand ≤ maxValidity d - 1) := by
  by_cases hb : maxValidity d - minValidity d < 1
  · rw [randomExpiryMinutes, if_pos hb]
    exact ⟨le_refl _, fun h => absurd hb h⟩
  · rw [randomExpiryMinutes, if_neg hb]
    have ht : 0 < (maxValidity d - minValidity d).toNat := by omega
    have hmod : rand % (maxValidity d - minValidity d).toNat
        < (maxValidity d - minValidity d).toNat := Nat.mod_lt rand ht
    constructor
    · have : (0 : Int) ≤ ((rand % (maxValidity d - minValidity d).toNat : Nat) : Int) := by
        exact_mod_cast Nat.zero_le _
      omega
    · intro _
      have : ((rand % (maxValidity d - minValidity d).toNat : Nat) : Int)
          < ((maxValidity d - minValidity d).toNat : Int) := by exact_mod_cast hmod
      omega

/-- Claim C5 counterexample: for a 101-minute validity window starting at 0
with `now = 0` and PRNG outcome 0, the function returns 50 minutes — the
code's target `validFrom + randomExpiry` lies strictly below
`validFrom + 0.5·d = 50.5 min`, outside the claimed interval. -/
theorem c5_interval_counterexample :
    calculateRandomExpiry 0 6060000000000 0 0 = 3000000000000
      ∧ 0 + randomExpiryMinutes (6060000000000 - 0) 0 * minuteNs = 3000000000000
      ∧ 2 * 3000000000000 < (6060000000000 : Int) - 0 := by
  refine ⟨by decide, by decide, by decide⟩

/-- Claim C5 (amended): the returned duration is `max 0 (target − now)` for
the code's target `validFrom + randomExpiry·minute`; it is never negative;
when `maxValidity − minValidity < 1` the selection is deterministic and
equals `minValidity`; and the target satisfies
`validFrom + 0.5·d − 1 minute < target ≤ validFrom + 0.8·d` — the claimed
lower bound `validFrom + 0.5·d` can be undershot by up to one minute because
the minute counts are truncated to integers. -/
theorem c5_random_expiry_bounds (validFrom validUntil now : Int) (rand : Nat)
    (h1 : validFrom < validUntil) (_h2 : now < validUntil) :
    0 ≤ calculateRandomExpiry validFrom validUntil now rand
    ∧ calculateRandomExpiry validFrom validUntil now rand
        = max 0 (validFrom + randomExpiryMinutes (validUntil - validFrom) rand * minuteNs - now)
    ∧ 2 * (randomExpiryMinutes (validUntil - validFrom) rand * minuteNs) + 2 * minuteNs
        > validUntil - validFrom
    ∧ 5 * (randomExpiryMinutes (validUntil - validFrom) rand * minuteNs)
        ≤ 4 * (validUntil - validFrom)
    ∧ (maxValidity (validUntil - validFrom) - minValidity (validUntil - validFrom) < 1 →
        randomExpiryMinutes (validUntil - validFrom) rand
          = minValidity (validUntil - validFrom)) := by
  have hd : (0 : Int) ≤ validUntil - validFrom := by omega
  have hmb := minValidity_bounds (validUntil - validFrom) hd
  have hxb := maxValidity_bounds (validUntil - validFrom) hd
  have hrb := randomExpiryMinutes_bounds (validUntil - validFrom) rand hd
  have hmin : minuteNs = 60000000000 := rfl
  have heq : calculateRandomExpiry validFrom validUntil now rand
      = max 0 (validFrom + randomExpiryMinutes (validUntil - validFrom) rand * minuteNs - now) := by
    rw [calculateRandomExpiry]
    omega
  refine ⟨by rw [heq]; omega, heq, ?_, ?_, fun h => by rw [randomExpiryMinutes, if_pos h]⟩
  · rw [hmin]
    omega
  · rw [hmin]
    by_cases hb : maxValidity (validUntil - validFrom) - minValidity (validUntil - validFrom) < 1
    · have := (randomExpiryMinutes_bounds (validUntil - validFrom) rand hd).1
      rw [randomExpiryMinutes, if_pos hb]
      omega
    · have := hrb.2 hb
      omega

/-- Witness for the amended C5 at a concrete 100-minute window. -/
theorem c5_random_expiry_bounds_witness :
    0 ≤ calculateRandomExpiry 0 6000000000000 0 3
    ∧ calculateRandomExpiry 0 6000000000000 0 3
        = max 0 (0 + randomExpiryMinutes (6000000000000 - 0) 3 * minuteNs - 0)
    ∧ 2 * (randomExpiryMinutes (6000000000000 - 0) 3 * minuteNs) + 2 * minuteNs
        > 6000000000000 - 0
    ∧ 5 * (randomExpiryMinutes (6000000000000 - 0) 3 * minuteNs)
        ≤ 4 * (6000000000000 - 0)
    ∧ (maxValidity (6000000000000 - 0) - minValidity (6000000000000 - 0) < 1 →
        randomExpiryMinutes (6000000000000 - 0) 3 = minValidity (6000000000000 - 0)) :=
  c5_random_expiry_bounds 0 6000000000000 0 3 (by norm_num) (by norm_num)

/-- Claim C6 counterexample: with minimum expiry 1h, default 2160h, backdate
1 minute and a requested expiry of 1h (at least the minimum), the signed
window has `NotAfter − NotBefore = expiry + backdate = 61 min·60`, not
`expiry`, and `NotAfter ≠ now + expiry − backdate` (the policy adds the
backdate to the profile expiry before handing it to the signer). -/
theorem c6_policy_counterexample :
    (signerValidityWindow 0
        (SigningPolicy 3600000000000 7776000000000000 60000000000 3600000000000)).2
      - (signerValidityWindow 0
          (SigningPolicy 3600000000000 7776000000000000 60000000000 3600000000000)).1
      = 3660000000000
    ∧ (3660000000000 : Int) ≠ 3600000000000
    ∧ (signerValidityWindow 0
          (SigningPolicy 3600000000000 7776000000000000 60000000000 3600000000000)).2
      ≠ 0 + 3600000000000 - 60000000000 :=
  ⟨by decide, by decide, by decide⟩

/-- Claim C6 (amended): for every requested expiry at least the minimum,
certificates signed under `SigningPolicy(expiry)` have
`NotBefore = now − backdate` and `NotAfter − NotBefore = expiry + backdate`,
i.e. `NotAfter = now + expiry`: the policy adds the backdate to the profile
expiry, so the backdate extends the window backwards without shortening the
time remaining after `now`. -/
theorem c6_policy_window (minExp defExp backdate expiry now : Int)
    (h : minExp ≤ expiry) :
    (signerValidityWindow now (SigningPolicy minExp defExp backdate expiry)).1
        = now - backdate
    ∧ (signerValidityWindow now (SigningPolicy minExp defExp backdate expiry)).2
        - (signerValidityWindow now (SigningPolicy minExp defExp backdate expiry)).1
        = expiry + backdate
    ∧ (signerValidityWindow now (SigningPolicy minExp defExp backdate expiry)).2
        = now + expiry := by
  have hnot : ¬(expiry < minExp) := not_lt.mpr h
  refine ⟨rfl, ?_, ?_⟩ <;> simp [signerValidityWindow, SigningPolicy, hnot]

/-- Witness for the amended C6 at concrete durations. -/
theorem c6_policy_window_witness :
    (signerValidityWindow 1000
        (SigningPolicy 3600000000000 7776000000000000 60000000000 3600000000000)).1
        = 1000 - 60000000000
    ∧ (signerValidityWindow 1000
          (SigningPolicy 3600000000000 7776000000000000 60000000000 3600000000000)).2
        - (signerValidityWindow 1000
            (SigningPolicy 3600000000000 7776000000000000 60000000000 3600000000000)).1
        = 3600000000000 + 60000000000
    ∧ (signerValidityWindow 1000
          (SigningPolicy 3600000000000 7776000000000000 60000000000 3600000000000)).2
        = 1000 + 3600000000000 :=
  c6_policy_window 3600000000000 7776000000000000 60000000000 3600000000000 1000
    (by norm_num)

/-- Claim C7: when the primary certificate reads, parses and verifies under
the root pool but the primary key does not pair with it, `LoadTLSCreds`
succeeds using the hidden sibling key whenever that key reads and pairs with
the primary certificate, and returns an error when the sibling key fails to
read or fails to pair. -/
theorem c7_load_tls_creds_sibling_fallback (c : CryptoOps)
    (disk : List Char → Except GoError (List Char)) (paths : CertPaths)
    (cert key : List Char)
    (hcert : disk paths.cert = .ok cert)
    (hkey : disk paths.key = .ok key)
    (hpem : c.pemOk cert = true)
    (hparse : c.parseCert cert = none)
    (hverify : c.verifyCert cert = none)
    (hpool : c.poolPresent = true)
    (hpair : c.keyPairOk cert key = false) :
    (∀ skey, disk (genTempPaths paths).key = .ok skey →
        c.keyPairOk cert skey = true →
        LoadTLSCreds c disk paths = .ok (cert, skey))
    ∧ (∀ skey, disk (genTempPaths paths).key = .ok skey →
        c.keyPairOk cert skey = false →
        LoadTLSCreds c disk paths = .error .keyPairInvalid)
    ∧ (∀ e, disk (genTempPaths paths).key = .error e →
        LoadTLSCreds c disk paths = .error .keyPairInvalid) := by
  refine ⟨?_, ?_, ?_⟩
  · intro skey hs hks
    simp [LoadTLSCreds, hcert, hkey, hpem, hparse, hverify, hpair, hs, hks,
      wrapCreds, hpool]
  · intro skey hs hks
    simp [LoadTLSCreds, hcert, hkey, hpem, hparse, hverify, hpair, hs, hks]
  · intro e hs
    simp [LoadTLSCreds, hcert, hkey, hpem, hparse, hverify, hpair, hs]

/-- Witness for C7: concrete disk with a crashed rotation (new cert, old key,
sibling key pairing) recovers through the sibling. -/
theorem c7_load_tls_creds_witness :
    LoadTLSCreds
        { pemOk := fun _ => true, parseCert := fun _ => none,
          verifyCert := fun _ => none,
          keyPairOk := fun _ k => decide (k = ['T']), poolPresent := true }
        (fun p => if p = ['c'] then .ok ['C'] else if p = ['k'] then .ok ['K']
                  else if p = ['.', 'k'] then .ok ['T'] else .error (.errCode 0))
        ⟨['c'], ['k']⟩
      = .ok (['C'], ['T']) :=
  (c7_load_tls_creds_sibling_fallback _ _ _ ['C'] ['K'] rfl rfl rfl rfl rfl rfl
    (by decide)).1 ['T'] rfl (by decide)

theorem finishCreds_trace (o : BootstrapOracles) (t : BootstrapTrace) :
    (finishCreds o t).2 = t := by
  rw [finishCreds]
  cases o.newServerCreds with
  | some e => rfl
  | none =>
    cases o.newClientCreds with
    | some e => rfl
    | none => rfl

theorem credsPhase_trace_counts (o : BootstrapOracles) (t : BootstrapTrace) :
    (credsPhase o t).2.remoteFetches = t.remoteFetches
    ∧ (credsPhase o t).2.rootSaves = t.rootSaves
    ∧ (credsPhase o t).2.issuanceRequests ≤ t.issuanceRequests + 1 := by
  rw [credsPhase]
  cases o.loadTLSCreds with
  | none => exact ⟨rfl, rfl, Nat.le_succ _⟩
  | some e =>
    dsimp only
    by_cases hc : o.canSign = true
    · rw [if_pos hc]
      cases o.issueLocal with
      | some e2 => exact ⟨rfl, rfl, Nat.le_succ _⟩
      | none => dsimp only; rw [finishCreds_trace]; exact ⟨rfl, rfl, Nat.le_succ _⟩
    · rw [if_neg hc]
      cases o.requestRemote with
      | some e2 => exact ⟨rfl, rfl, Nat.le_refl _⟩
      | none => dsimp only; rw [finishCreds_trace]; exact ⟨rfl, rfl, Nat.le_refl _⟩

theorem fetchLoop_all_fail (remote : Nat → Option GoError)
    (h : ∀ i, i < 5 → remote i ≠ none) :
    ∃ e, remote 4 = some e ∧ fetchLoop remote = (5, some e) := by
  obtain ⟨e0, h0⟩ := Option.ne_none_iff_exists'.mp (h 0 (by norm_num))
  obtain ⟨e1, h1⟩ := Option.ne_none_iff_exists'.mp (h 1 (by norm_num))
  obtain ⟨e2, h2⟩ := Option.ne_none_iff_exists'.mp (h 2 (by norm_num))
  obtain ⟨e3, h3⟩ := Option.ne_none_iff_exists'.mp (h 3 (by norm_num))
  obtain ⟨e4, h4⟩ := Option.ne_none_iff_exists'.mp (h 4 (by norm_num))
  exact ⟨e4, h4, by simp [fetchLoop, fetchLoopAux, h0, h1, h2, h3, h4]⟩

theorem fetchLoop_first_success (remote : Nat → Option GoError) (k : Nat) (hk : k < 5)
    (hsucc : remote k = none) (hfail : ∀ i, i < k → remote i ≠ none) :
    fetchLoop remote = (k + 1, none) := by
  interval_cases k
  · simp [fetchLoop, fetchLoopAux, hsucc]
  · obtain ⟨e0, h0⟩ := Option.ne_none_iff_exists'.mp (hfail 0 (by norm_num))
    simp [fetchLoop, fetchLoopAux, h0, hsucc]
  · obtain ⟨e0, h0⟩ := Option.ne_none_iff_exists'.mp (hfail 0 (by norm_num))
    obtain ⟨e1, h1⟩ := Option.ne_none_iff_exists'.mp (hfail 1 (by norm_num))
    simp [fetchLoop, fetchLoopAux, h0, h1, hsucc]
  · obtain ⟨e0, h0⟩ := Option.ne_none_iff_exists'.mp (hfail 0 (by norm_num))
    obtain ⟨e1, h1⟩ := Option.ne_none_iff_exists'.mp (hfail 1 (by norm_num))
    obtain ⟨e2, h2⟩ := Option.ne_none_iff_exists'.mp (hfail 2 (by norm_num))
    simp [fetchLoop, fetchLoopAux, h0, h1, h2, hsucc]
  · obtain ⟨e0, h0⟩ := Option.ne_none_iff_exists'.mp (hfail 0 (by norm_num))
    obtain ⟨e1, h1⟩ := Option.ne_none_iff_exists'.mp (hfail 1 (by norm_num))
    obtain ⟨e2, h2⟩ := Option.ne_none_iff_exists'.mp (hfail 2 (by norm_num))
    obtain ⟨e3, h3⟩ := Option.ne_none_iff_exists'.mp (hfail 3 (by norm_num))
    simp [fetchLoop, fetchLoopAux, h0, h1, h2, h3, hsucc]

/-- Claim C8: during bootstrap with no local root CA (and an empty or
decodable token), the remote-CA fetch is attempted exactly 5 times when all
attempts fail — the returned error is the fifth attempt's, nothing is
persisted and no issuance happens — the loop stops at the first success
(k failures followed by a success make k+1 attempts), and the issuance
request is made at most once in every execution. The loop body contains no
delay, so the attempts are back-to-back. -/
theorem c8_bootstrap_fetch_retries (o : BootstrapOracles)
    (hlocal : o.localCA = .noLocalRootCA)
    (htoken : o.token = [] ∨ ∃ d, getCAHashFromToken o.token = .ok d) :
    ((∀ i, i < 5 → o.remoteCA i ≠ none) →
        (∃ e, o.remoteCA 4 = some e ∧ (LoadOrCreateSecurityConfig o).1 = some e)
        ∧ (LoadOrCreateSecurityConfig o).2.remoteFetches = 5
        ∧ (LoadOrCreateSecurityConfig o).2.rootSaves = 0
        ∧ (LoadOrCreateSecurityConfig o).2.issuanceRequests = 0
        ∧ (LoadOrCreateSecurityConfig o).2.localIssuances = 0)
    ∧ (∀ k, k < 5 → o.remoteCA k = none → (∀ i, i < k → o.remoteCA i ≠ none) →
        (LoadOrCreateSecurityConfig o).2.remoteFetches = k + 1)
    ∧ (LoadOrCreateSecurityConfig o).2.issuanceRequests ≤ 1 := by
  have htok : (if o.token.isEmpty then none
      else match getCAHashFromToken o.token with
           | .ok _ => none
           | .error e => some e) = (none : Option GoError) := by
    rcases htoken with h | ⟨d, hd⟩
    · simp [h]
    · by_cases he : o.token.isEmpty
      · simp [he]
      · simp [he, hd]
  refine ⟨?_, ?_, ?_⟩
  · intro h
    obtain ⟨e, h4, hfl⟩ := fetchLoop_all_fail o.remoteCA h
    have hmain : LoadOrCreateSecurityConfig o
        = (some e, { emptyTrace with remoteFetches := 5 }) := by
      simp only [LoadOrCreateSecurityConfig, hlocal, htok, hfl]
    refine ⟨⟨e, h4, by rw [hmain]⟩, by rw [hmain], by rw [hmain]; rfl,
      by rw [hmain]; rfl, by rw [hmain]; rfl⟩
  · intro k hk hsucc hfail
    have hfl := fetchLoop_first_success o.remoteCA k hk hsucc hfail
    cases hs : o.saveRootCA with
    | some e =>
      have hmain : LoadOrCreateSecurityConfig o
          = (some e, ⟨k + 1, 1, 0, 0⟩) := by
        simp only [LoadOrCreateSecurityConfig, hlocal, htok, hfl, hs]
      rw [hmain]
    | none =>
      have hmain : LoadOrCreateSecurityConfig o
          = credsPhase o ⟨k + 1, 1, 0, 0⟩ := by
        simp only [LoadOrCreateSecurityConfig, hlocal, htok, hfl, hs]
      rw [hmain, (credsPhase_trace_counts o _).1]
  · rcases hfl : fetchLoop o.remoteCA with ⟨n, oe⟩
    cases oe with
    | some e =>
      have hmain : LoadOrCreateSecurityConfig o
          = (some e, { emptyTrace with remoteFetches := n }) := by
        simp only [LoadOrCreateSecurityConfig, hlocal, htok, hfl]
      rw [hmain]
      norm_num [emptyTrace]
    | none =>
      cases hs : o.saveRootCA with
      | some e =>
        have hmain : LoadOrCreateSecurityConfig o
            = (some e, ⟨n, 1, 0, 0⟩) := by
          simp only [LoadOrCreateSecurityConfig, hlocal, htok, hfl, hs]
        rw [hmain]
        norm_num
      | none =>
        have hmain : LoadOrCreateSecurityConfig o
            = credsPhase o ⟨n, 1, 0, 0⟩ := by
          simp only [LoadOrCreateSecurityConfig, hlocal, htok, hfl, hs]
        rw [hmain]
        exact le_trans (credsPhase_trace_counts o ⟨n, 1, 0, 0⟩).2.2 (Nat.le_refl 1)

/-- Witness for C8: all five attempts fail with distinct errors; the result is
the fifth error after exactly five fetches and no persistence. -/
theorem c8_bootstrap_fetch_retries_witness :
    (∃ e, (fun i => some (GoError.errCode i)) 4 = some e
      ∧ (LoadOrCreateSecurityConfig
          { localCA := .noLocalRootCA, token := [],
            remoteCA := fun i => some (.errCode i), saveRootCA := none,
            loadTLSCreds := none, canSign := false, issueLocal := none,
            requestRemote := none, newServerCreds := none,
            newClientCreds := none }).1 = some e)
    ∧ (LoadOrCreateSecurityConfig
        { localCA := .noLocalRootCA, token := [],
          remoteCA := fun i => some (.errCode i), saveRootCA := none,
          loadTLSCreds := none, canSign := false, issueLocal := none,
          requestRemote := none, newServerCreds := none,
          newClientCreds := none }).2.remoteFetches = 5
    ∧ (LoadOrCreateSecurityConfig
        { localCA := .noLocalRootCA, token := [],
          remoteCA := fun i => some (.errCode i), saveRootCA := none,
          loadTLSCreds := none, canSign := false, issueLocal := none,
          requestRemote := none, newServerCreds := none,
          newClientCreds := none }).2.rootSaves = 0
    ∧ (LoadOrCreateSecurityConfig
        { localCA := .noLocalRootCA, token := [],
          remoteCA := fun i => some (.errCode i), saveRootCA := none,
          loadTLSCreds := none, canSign := false, issueLocal := none,
          requestRemote := none, newServerCreds := none,
          newClientCreds := none }).2.issuanceRequests = 0
    ∧ (LoadOrCreateSecurityConfig
        { localCA := .noLocalRootCA, token := [],
          remoteCA := fun i => some (.errCode i), saveRootCA := none,
          loadTLSCreds := none, canSign := false, issueLocal := none,
          requestRemote := none, newServerCreds := none,
          newClientCreds := none }).2.localIssuances = 0 :=
  (c8_bootstrap_fetch_retries
      { localCA := .noLocalRootCA, token := [],
        remoteCA := fun i => some (.errCode i), saveRootCA := none,
        loadTLSCreds := none, canSign := false, issueLocal := none,
        requestRemote := none, newServerCreds := none,
        newClientCreds := none }
      rfl (Or.inl rfl)).1
    (fun i _ => by simp)

/-- Claim C9: the role codec is a case-insensitive partial bijection over
{manager, worker}: the two round trips hold, `FormatRole` accepts any
capitalization of the two role strings, every other input to either function
(including the in-code CA role string) errors, and `ParseRole` never
returns the CA role string. -/
theorem c9_role_codec :
    ParseRole NodeRoleManager = .ok ManagerRole
    ∧ ParseRole NodeRoleWorker = .ok WorkerRole
    ∧ FormatRole ManagerRole = .ok NodeRoleManager
    ∧ FormatRole WorkerRole = .ok NodeRoleWorker
    ∧ (∀ s, stringsToLower s = ManagerRole → FormatRole s = .ok NodeRoleManager)
    ∧ (∀ s, stringsToLower s = WorkerRole → FormatRole s = .ok NodeRoleWorker)
    ∧ (∀ r, r ≠ NodeRoleManager → r ≠ NodeRoleWorker →
        ParseRole r = .error .parseRoleFailed)
    ∧ (∀ s, stringsToLower s ≠ ManagerRole → stringsToLower s ≠ WorkerRole →
        FormatRole s = .error .formatRoleFailed)
    ∧ FormatRole CARole = .error .formatRoleFailed
    ∧ (∀ r s, ParseRole r = .ok s → s ≠ CARole) := by
  have hlowM : stringsToLower ManagerRole = ManagerRole := rfl
  have hlowW : stringsToLower WorkerRole = WorkerRole := rfl
  refine ⟨rfl, rfl, rfl, rfl, ?_, ?_, ?_, ?_, rfl, ?_⟩
  · intro s h
    rw [FormatRole, hlowM, hlowW, h, if_pos rfl]
  · intro s h
    rw [FormatRole, hlowM, hlowW, h, if_neg (by decide), if_pos rfl]
  · intro r h1 h2
    rw [ParseRole, if_neg h1, if_neg h2]
  · intro s h1 h2
    rw [FormatRole, hlowM, hlowW, if_neg h1, if_neg h2]
  · intro r s h
    rw [ParseRole] at h
    by_cases h1 : r = NodeRoleManager
    · rw [if_pos h1] at h
      cases h
      decide
    · rw [if_neg h1] at h
      by_cases h2 : r = NodeRoleWorker
      · rw [if_pos h2] at h
        cases h
        decide
      · rw [if_neg h2] at h
        exact Except.noConfusion h

/-- Witness for C9: mixed-case manager string accepted, unknown wire value
rejected. -/
theorem c9_role_codec_witness :
    FormatRole ['S', 'W', 'A', 'R', 'M', '-', 'M', 'a', 'n', 'a', 'g', 'e', 'r']
        = .ok NodeRoleManager
    ∧ ParseRole 7 = .error .parseRoleFailed :=
  ⟨c9_role_codec.2.2.2.2.1 _ rfl,
   c9_role_codec.2.2.2.2.2.2.1 7 (by decide) (by decide)⟩

/-- Claim C10: UpdateRootCA is atomic on error — when the NewRootCA
constructor fails, the error is returned and the rootCA slot is untouched
(RootCA() still returns the previous root); the slot is replaced exactly
when construction succeeds. -/
theorem c10_update_root_ca_atomic (s : SecurityConfigState)
    (NewRootCA : List Char → List Char → Int → Except GoError RootCA)
    (cert key : List Char) (certExpiry : Int) :
    (∀ e, NewRootCA cert key certExpiry = .error e →
        UpdateRootCA s NewRootCA cert key certExpiry = (s, some e)
        ∧ (UpdateRootCA s NewRootCA cert key certExpiry).1.RootCA = s.RootCA)
    ∧ (∀ r, NewRootCA cert key certExpiry = .ok r →
        UpdateRootCA s NewRootCA cert key certExpiry = ({ s with rootCA := r }, none)
        ∧ (UpdateRootCA s NewRootCA cert key certExpiry).1.RootCA = r) := by
  constructor
  · intro e he
    constructor <;> simp [UpdateRootCA, he, SecurityConfigState.RootCA]
  · intro r hr
    constructor <;> simp [UpdateRootCA, hr, SecurityConfigState.RootCA]

/-- Witness for C10: a failing constructor leaves the stored root CA as it
was and surfaces the error. -/
theorem c10_update_root_ca_witness :
    UpdateRootCA ⟨⟨5⟩⟩ (fun _ _ _ => .error (.errCode 1)) ['c'] ['k'] 0
        = (⟨⟨5⟩⟩, some (.errCode 1))
    ∧ (UpdateRootCA ⟨⟨5⟩⟩ (fun _ _ _ => .error (.errCode 1)) ['c'] ['k'] 0).1.RootCA
        = SecurityConfigState.RootCA ⟨⟨5⟩⟩ :=
  (c10_update_root_ca_atomic ⟨⟨5⟩⟩ (fun _ _ _ => .error (.errCode 1)) ['c'] ['k'] 0).1
    (.errCode 1) rfl
